import Mathlib

/-!
Verification of the LLM client of brothers-morrison/ralph-inferno
(src/core/llm_client.py).

The file embeds the two units of the client:

* the completeness classifier `is_llm_response_incomplete` (lines 17-49 of
  llm_client.py), together with a recognizer `jsonValid` for the strings
  accepted by Python's `json.loads` and a model `pyStrip` of `str.strip()`;
* the retry loop `call_llm_with_timeout_handling` (lines 51-102) and the
  click entry point `main` (lines 105-120).  The network is modelled as an
  oracle `net : Nat -> NetOutcome` giving the outcome the i-th HTTP attempt
  would observe if it were performed.
-/

namespace LlmClient

/-! ### Python `str.strip()` -/

/-- Characters stripped by Python's `str.strip()` (the code points for which
`str.isspace()` holds in CPython). -/
def pyIsSpace (c : Char) : Bool :=
  c.toNat == 0x20 || (0x9 ≤ c.toNat && c.toNat ≤ 0xD) ||
  (0x1C ≤ c.toNat && c.toNat ≤ 0x1F) || c.toNat == 0x85 || c.toNat == 0xA0 ||
  c.toNat == 0x1680 || (0x2000 ≤ c.toNat && c.toNat ≤ 0x200A) ||
  c.toNat == 0x2028 || c.toNat == 0x2029 || c.toNat == 0x202F ||
  c.toNat == 0x205F || c.toNat == 0x3000

def pyStripList (cs : List Char) : List Char :=
  ((cs.dropWhile pyIsSpace).reverse.dropWhile pyIsSpace).reverse

/-- Python's `response_text.strip()`. -/
def pyStrip (s : String) : String :=
  String.mk (pyStripList s.data)

/-! ### A recognizer for `json.loads`

`is_llm_response_incomplete` first tries `json.loads(response_text)` and
returns `False` on success.  The recognizer below accepts exactly the strings
accepted by CPython's (C-accelerated) scanner: optional whitespace, one JSON
value (object / array / string / number / `true` / `false` / `null`, plus the
default constants `NaN`, `Infinity`, `-Infinity`), optional trailing
whitespace, end of input.  JSON whitespace is space, tab, LF, CR. -/

def jsonWsChar (c : Char) : Bool :=
  c == ' ' || c == '\t' || c == '\n' || c == '\r'

def skipWs : List Char → List Char
  | [] => []
  | c :: cs => if jsonWsChar c then skipWs cs else c :: cs

def isHexDigitCh (c : Char) : Bool :=
  c.isDigit || ('a' ≤ c && c ≤ 'f') || ('A' ≤ c && c ≤ 'F')

/-- Body of a JSON string, to be read after the opening quote; returns the
input remaining after the closing quote.  Strict mode: raw control characters
(code points below 0x20) are rejected; the escapes are the eight one-letter
escapes and `\uXXXX` with exactly four hex digits. -/
def parseStringBody : List Char → Option (List Char)
  | [] => none
  | c :: cs =>
    if c = '\"' then some cs
    else if c = '\\' then
      match cs with
      | [] => none
      | e :: cs2 =>
        if e = 'u' then
          match cs2 with
          | h1 :: h2 :: h3 :: h4 :: cs3 =>
            if isHexDigitCh h1 && isHexDigitCh h2 && isHexDigitCh h3 &&
               isHexDigitCh h4 then
              parseStringBody cs3
            else none
          | _ => none
        else if e = '\"' || e = '\\' || e = '/' || e = 'b' || e = 'f' ||
                e = 'n' || e = 'r' || e = 't' then
          parseStringBody cs2
        else none
    else if c.toNat < 32 then none
    else parseStringBody cs

def dropDigits : List Char → List Char
  | [] => []
  | c :: cs => if c.isDigit then dropDigits cs else c :: cs

/-- The integer part of the scanner's number regex `(-?(?:0|[1-9]\d*))`,
after the optional sign: a single `0`, or a nonzero digit followed by
digits. -/
def parseIntPart : List Char → Option (List Char)
  | '0' :: r => some r
  | c :: r => if c.isDigit then some (dropDigits r) else none
  | [] => none

/-- Optional fraction `(\.\d+)?`: consumed only when a digit follows the
dot, otherwise the input is left untouched (the regex simply does not match
the group). -/
def parseFracOpt (cs : List Char) : List Char :=
  match cs with
  | '.' :: c :: r => if c.isDigit then dropDigits r else cs
  | _ => cs

/-- Optional exponent `([eE][-+]?\d+)?`, again with no consumption when the
group does not match. -/
def parseExpOpt (cs : List Char) : List Char :=
  match cs with
  | e :: r =>
    if e = 'e' || e = 'E' then
      match r with
      | sg :: r2 =>
        if sg = '+' || sg = '-' then
          match r2 with
          | d :: r3 => if d.isDigit then dropDigits r3 else cs
          | [] => cs
        else if sg.isDigit then dropDigits r2
        else cs
      | [] => cs
    else cs
  | [] => cs

/-- The scanner's number match: optional `-`, mandatory integer part,
optional fraction, optional exponent. -/
def parseNumber (cs : List Char) : Option (List Char) :=
  let afterSign := match cs with
    | '-' :: r => r
    | _ => cs
  match parseIntPart afterSign with
  | some r => some (parseExpOpt (parseFracOpt r))
  | none => none

mutual

/-- One JSON value; mirrors CPython's `scan_once` dispatch: string, object,
array, the literals, then the number regex, then `NaN` / `Infinity` /
`-Infinity`.  The fuel only bounds nesting; `jsonValid` supplies enough of
it for any input. -/
def parseValue : Nat → List Char → Option (List Char)
  | 0, _ => none
  | fuel + 1, cs =>
    match cs with
    | '\"' :: r => parseStringBody r
    | '\x7b' :: r =>
      match skipWs r with
      | '\x7d' :: r2 => some r2
      | '\"' :: r2 => parseMembers fuel r2
      | _ => none
    | '[' :: r =>
      match skipWs r with
      | ']' :: r2 => some r2
      | cs2 => parseElements fuel cs2
    | 'n' :: 'u' :: 'l' :: 'l' :: r => some r
    | 't' :: 'r' :: 'u' :: 'e' :: r => some r
    | 'f' :: 'a' :: 'l' :: 's' :: 'e' :: r => some r
    | _ =>
      match parseNumber cs with
      | some r => some r
      | none =>
        match cs with
        | 'N' :: 'a' :: 'N' :: r => some r
        | 'I' :: 'n' :: 'f' :: 'i' :: 'n' :: 'i' :: 't' :: 'y' :: r => some r
        | '-' :: 'I' :: 'n' :: 'f' :: 'i' :: 'n' :: 'i' :: 't' :: 'y' :: r =>
          some r
        | _ => none

/-- Object members, entered after the opening quote of a key. -/
def parseMembers : Nat → List Char → Option (List Char)
  | 0, _ => none
  | fuel + 1, cs =>
    match parseStringBody cs with
    | none => none
    | some r1 =>
      match skipWs r1 with
      | ':' :: r2 =>
        match parseValue fuel (skipWs r2) with
        | none => none
        | some r3 =>
          match skipWs r3 with
          | '\x7d' :: r4 => some r4
          | ',' :: r4 =>
            match skipWs r4 with
            | '\"' :: r5 => parseMembers fuel r5
            | _ => none
          | _ => none
      | _ => none

/-- Array elements, entered at the first character of the first element. -/
def parseElements : Nat → List Char → Option (List Char)
  | 0, _ => none
  | fuel + 1, cs =>
    match parseValue fuel cs with
    | none => none
    | some r1 =>
      match skipWs r1 with
      | ']' :: r2 => some r2
      | ',' :: r2 => parseElements fuel (skipWs r2)
      | _ => none

end

/-- `json.loads(s)` succeeds: leading whitespace, one value, trailing
whitespace, end of input.  Two fuel units per character always suffice:
every second recursive call consumes at least one character. -/
def jsonValid (s : String) : Bool :=
  match parseValue (2 * s.data.length + 2) (skipWs s.data) with
  | some rest => (skipWs rest).isEmpty
  | none => false

/-! ### The classifier `is_llm_response_incomplete` (llm_client.py 17-49) -/

/-- The six `incomplete_patterns` of the source.  Each pattern has the form
`X\s*$` and is searched with `re.search` in `response_text.strip()`; since
the stripped text has no trailing whitespace (every JSON-pattern character is
also Python whitespace for `\s`), such a search succeeds exactly when the
stripped text ends in `X`. -/
def matchesIncompletePattern (t : String) : Bool :=
  match t.data.getLast? with
  | some c =>
    c == '\x7d' || c == ',' || c == ':' || c == '\"' || c == '[' || c == '\x7b'
  | none => false

/-- `is_llm_response_incomplete(response_text)` for a string argument:
empty input is incomplete; a `json.loads`-valid input is complete; otherwise
incomplete when a trailing pattern matches or the stripped text is shorter
than 50 characters, and complete otherwise. -/
def is_llm_response_incomplete (response_text : String) : Bool :=
  if response_text = "" then true
  else if jsonValid response_text then false
  else if matchesIncompletePattern (pyStrip response_text) then true
  else if (pyStrip response_text).length < 50 then true
  else false

/-- The classifier on a Python value that may be `None`: `if not
response_text` is taken for `None` exactly as for the empty string. -/
def is_llm_response_incomplete_opt : Option String → Bool
  | none => true
  | some s => is_llm_response_incomplete s

/-! ### Spec-side trailing-fragment predicates

These two definitions follow the WORDS of the specification (section 4.1,
step 3), not the code; they exist to state claims C3 and C5 the way the
spec states them. -/

/-- Net count of opening minus closing braces in a character list. -/
def braceBalance (cs : List Char) : Int :=
  cs.foldl
    (fun a c => if c == '\x7b' then a + 1 else if c == '\x7d' then a - 1 else a)
    0

/-- Modelled from the spec (section 4.1, step 3): the trimmed text "ends with
an unmatched opening bracket or brace, ends with a colon, ends with a comma,
ends with a bare quote character, or ends with a lone closing brace that is
unmatched in context".  A trailing opening bracket or brace is always
unmatched (nothing follows it); a trailing closing brace is unmatched in
context exactly when the text before it holds no surplus opening brace. -/
def spec_trailingFragment (t : String) : Bool :=
  match t.data.getLast? with
  | some c =>
    c == '\x7b' || c == '[' || c == ':' || c == ',' || c == '\"' ||
    (c == '\x7d' && decide (braceBalance t.data.dropLast ≤ 0))
  | none => false

/-- The five trailing characters named by claim C5 and the spec's testable
property list: `\x7b`, `[`, `:`, `,`, `"`. -/
def spec_trailingMarker (t : String) : Bool :=
  match t.data.getLast? with
  | some c => c == '\x7b' || c == '[' || c == ':' || c == ',' || c == '\"'
  | none => false

/-- The amended trailing-fragment test actually implemented by the code:
the six pattern characters, with ANY trailing closing brace counting,
matched in context or not. -/
def spec_trailingFragmentAmended (t : String) : Bool :=
  match t.data.getLast? with
  | some c =>
    c == '\x7b' || c == '[' || c == ':' || c == ',' || c == '\"' || c == '\x7d'
  | none => false

/-! ### The retry loop `call_llm_with_timeout_handling` (llm_client.py 51-102)

The response JSON of an attempt is modelled by the keys the code touches:
`result["choices"][0]["message"]["content"]`.  An absent key is `none` (its
lookup raises `KeyError`, which no `except` clause of the loop catches);
`content`, when present, holds a string.  The network is an oracle
`net : Nat -> NetOutcome` mapping the 0-based attempt index to the outcome
that attempt would observe: `requests.exceptions.Timeout`, any other
`requests.exceptions.RequestException` (connection failure, the non-2xx
statuses raised by `raise_for_status`, an unparsable body), or a parsed
2xx body. -/

structure Message where
  content : Option String
  deriving DecidableEq

structure Choice where
  message : Option Message
  deriving DecidableEq

structure LlmResult where
  choices : Option (List Choice)
  deriving DecidableEq

inductive NetOutcome where
  | timeout
  | reqError
  | success (result : LlmResult)
  deriving DecidableEq

/-- `result["choices"][0]["message"]["content"]` when every lookup succeeds. -/
def firstContent (r : LlmResult) : Option String :=
  match r.choices with
  | some (c :: _) =>
    match c.message with
    | some m => m.content
    | none => none
  | _ => none

/-- What one iteration of the `for attempt in range(max_retries)` body does
with the outcome it observes:
* `retry slept` — fall through to the next iteration, `slept` recording
  whether `time.sleep(2)` ran (only the incomplete-response branch sleeps);
* `done r` — `return result`;
* `crash` — a `KeyError` escapes the loop (`except` only catches the two
  `requests` exception classes). -/
inductive StepResult where
  | retry (slept : Bool)
  | done (r : LlmResult)
  | crash
  deriving DecidableEq

def step (o : NetOutcome) : StepResult :=
  match o with
  | .timeout => .retry false
  | .reqError => .retry false
  | .success r =>
    match r.choices with
    | some (c :: _) =>
      match c.message with
      | none => .crash
      | some m =>
        match m.content with
        | none => .crash
        | some s =>
          if is_llm_response_incomplete s then .retry true else .done r
    | _ => .retry false

/-- Final state of the loop. -/
inductive ExecOutcome where
  | completed (r : LlmResult)
  | exhausted
  | keyError
  deriving DecidableEq

/-- Observable record of one execution: the final state, the number of HTTP
attempts performed (attempt indices are consecutive from the first one), and
the list of attempt indices after which `time.sleep(2)` ran. -/
structure Trace where
  outcome : ExecOutcome
  attempts : Nat
  sleeps : List Nat
  deriving DecidableEq

/-- The loop from attempt index `k` with `n` iterations left. -/
def runAttempts (net : Nat → NetOutcome) (k n : Nat) : Trace :=
  match n with
  | 0 => { outcome := .exhausted, attempts := 0, sleeps := [] }
  | n' + 1 =>
    match step (net k) with
    | .retry slept =>
      let t := runAttempts net (k + 1) n'
      { outcome := t.outcome, attempts := t.attempts + 1,
        sleeps := if slept then k :: t.sleeps else t.sleeps }
    | .done r => { outcome := .completed r, attempts := 1, sleeps := [] }
    | .crash => { outcome := .keyError, attempts := 1, sleeps := [] }

/-- `call_llm_with_timeout_handling(api_key, model, messages, max_retries,
timeout)`.  The headers and payload are built once before the loop and do not
influence control flow, so the embedding keeps only the retry budget and the
network oracle; `ExecOutcome.exhausted` is the `return None` after the
loop. -/
def call_llm_with_timeout_handling (net : Nat → NetOutcome)
    (max_retries : Nat) : Trace :=
  runAttempts net 0 max_retries

/-! ### The click entry point `main` (llm_client.py 105-120) -/

/-- Python truthiness of the `api_key` option value (`None` when the
environment variable is unset, otherwise the supplied string). -/
def pyTruthy (o : Option String) : Bool :=
  match o with
  | none => false
  | some s => if s = "" then false else true

inductive MainOutcome where
  | preconditionError
  | echoed (s : String)
  | failed
  | crashed
  deriving DecidableEq

/-- `main(api_key, query, model, timeout)`: raise `click.ClickException` on a
falsy api key or a blank query before any network activity; otherwise run the
client (with the default `max_retries=3`) and echo the first choice's content
or the failure message.  The second component counts HTTP attempts. -/
def main (net : Nat → NetOutcome) (api_key : Option String) (query : String) :
    MainOutcome × Nat :=
  if !pyTruthy api_key then (.preconditionError, 0)
  else if pyStrip query = "" then (.preconditionError, 0)
  else
    let t := call_llm_with_timeout_handling net 3
    match t.outcome with
    | .completed r =>
      match r.choices with
      | some (c :: _) =>
        match c.message with
        | some m =>
          match m.content with
          | some s => (.echoed s, t.attempts)
          | none => (.crashed, t.attempts)
        | none => (.crashed, t.attempts)
      | _ => (.failed, t.attempts)
    | .exhausted => (.failed, t.attempts)
    | .keyError => (.crashed, t.attempts)

/-! ### Attempt-outcome predicates used by the claims -/

/-- An attempt that fails in one of the four ways the claims enumerate:
transport-level timeout, transport-level error, a 2xx body without a
nonempty `choices` array, or a received first-choice content classified
incomplete.  Every such attempt lets the loop continue. -/
def FailsOn (o : NetOutcome) : Prop :=
  o = .timeout ∨ o = .reqError ∨
  (∃ r, o = .success r ∧ (r.choices = none ∨ r.choices = some [])) ∨
  (∃ r s, o = .success r ∧ firstContent r = some s ∧
    is_llm_response_incomplete s = true)

/-! ### Unfolding equations for the loop -/

theorem runAttempts_zero (net : Nat → NetOutcome) (k : Nat) :
    runAttempts net k 0 = { outcome := .exhausted, attempts := 0, sleeps := [] } :=
  rfl

theorem runAttempts_succ_retry {net : Nat → NetOutcome} {k : Nat} {b : Bool}
    (hb : step (net k) = .retry b) (n : Nat) :
    runAttempts net k (n + 1) =
      { outcome := (runAttempts net (k + 1) n).outcome,
        attempts := (runAttempts net (k + 1) n).attempts + 1,
        sleeps := if b then k :: (runAttempts net (k + 1) n).sleeps
                  else (runAttempts net (k + 1) n).sleeps } := by
  simp only [runAttempts]
  rw [hb]

theorem runAttempts_succ_done {net : Nat → NetOutcome} {k : Nat}
    {r : LlmResult} (hb : step (net k) = .done r) (n : Nat) :
    runAttempts net k (n + 1) =
      { outcome := .completed r, attempts := 1, sleeps := [] } := by
  simp only [runAttempts]
  rw [hb]

theorem runAttempts_succ_crash {net : Nat → NetOutcome} {k : Nat}
    (hb : step (net k) = .crash) (n : Nat) :
    runAttempts net k (n + 1) =
      { outcome := .keyError, attempts := 1, sleeps := [] } := by
  simp only [runAttempts]
  rw [hb]

theorem sleeps_succ_retry {net : Nat → NetOutcome} {k : Nat} {b : Bool}
    (hb : step (net k) = .retry b) (n : Nat) :
    (runAttempts net k (n + 1)).sleeps =
      if b then k :: (runAttempts net (k + 1) n).sleeps
      else (runAttempts net (k + 1) n).sleeps := by
  rw [runAttempts_succ_retry hb]

theorem attempts_succ_retry {net : Nat → NetOutcome} {k : Nat} {b : Bool}
    (hb : step (net k) = .retry b) (n : Nat) :
    (runAttempts net k (n + 1)).attempts =
      (runAttempts net (k + 1) n).attempts + 1 := by
  rw [runAttempts_succ_retry hb]

/-! ### Bridges between `step` and the attempt-outcome predicates -/

theorem step_done_of_complete {r : LlmResult} {s : String}
    (hc : firstContent r = some s)
    (hinc : is_llm_response_incomplete s = false) :
    step (NetOutcome.success r) = StepResult.done r := by
  rcases r with ⟨choices⟩
  match choices with
  | none => simp [firstContent] at hc
  | some [] => simp [firstContent] at hc
  | some (⟨none⟩ :: cs) => simp [firstContent] at hc
  | some (⟨some ⟨none⟩⟩ :: cs) => simp [firstContent] at hc
  | some (⟨some ⟨some s2⟩⟩ :: cs) =>
    simp only [firstContent, Option.some.injEq] at hc
    subst hc
    simp [step, hinc]

theorem step_done_inv {o : NetOutcome} {r : LlmResult}
    (h : step o = StepResult.done r) :
    o = NetOutcome.success r ∧
      ∃ s, firstContent r = some s ∧ is_llm_response_incomplete s = false := by
  match o with
  | .timeout => simp [step] at h
  | .reqError => simp [step] at h
  | .success ⟨none⟩ => simp [step] at h
  | .success ⟨some []⟩ => simp [step] at h
  | .success ⟨some (⟨none⟩ :: cs)⟩ => simp [step] at h
  | .success ⟨some (⟨some ⟨none⟩⟩ :: cs)⟩ => simp [step] at h
  | .success ⟨some (⟨some ⟨some s⟩⟩ :: cs)⟩ =>
    by_cases hinc : is_llm_response_incomplete s = true
    · simp [step, hinc] at h
    · rw [Bool.not_eq_true] at hinc
      simp only [step, hinc, Bool.false_eq_true, if_false, StepResult.done.injEq] at h
      subst h
      exact ⟨rfl, s, rfl, hinc⟩

theorem step_retry_true_iff (o : NetOutcome) :
    step o = StepResult.retry true ↔
      ∃ r s, o = NetOutcome.success r ∧ firstContent r = some s ∧
        is_llm_response_incomplete s = true := by
  constructor
  · intro h
    match o with
    | .timeout => simp [step] at h
    | .reqError => simp [step] at h
    | .success ⟨none⟩ => simp [step] at h
    | .success ⟨some []⟩ => simp [step] at h
    | .success ⟨some (⟨none⟩ :: cs)⟩ => simp [step] at h
    | .success ⟨some (⟨some ⟨none⟩⟩ :: cs)⟩ => simp [step] at h
    | .success ⟨some (⟨some ⟨some s⟩⟩ :: cs)⟩ =>
      by_cases hinc : is_llm_response_incomplete s = true
      · exact ⟨_, s, rfl, rfl, hinc⟩
      · rw [Bool.not_eq_true] at hinc
        simp [step, hinc] at h
  · rintro ⟨r, s, rfl, hc, hinc⟩
    rcases r with ⟨choices⟩
    match choices with
    | none => simp [firstContent] at hc
    | some [] => simp [firstContent] at hc
    | some (⟨none⟩ :: cs) => simp [firstContent] at hc
    | some (⟨some ⟨none⟩⟩ :: cs) => simp [firstContent] at hc
    | some (⟨some ⟨some s2⟩⟩ :: cs) =>
      simp only [firstContent, Option.some.injEq] at hc
      subst hc
      simp [step, hinc]

theorem step_retry_of_fails {o : NetOutcome} (h : FailsOn o) :
    ∃ b, step o = StepResult.retry b := by
  rcases h with h | h | ⟨r, rfl, hch⟩ | h
  · exact ⟨false, by rw [h]; rfl⟩
  · exact ⟨false, by rw [h]; rfl⟩
  · rcases r with ⟨choices⟩
    rcases hch with h1 | h1 <;> (simp only at h1; subst h1; exact ⟨false, rfl⟩)
  · exact ⟨true, (step_retry_true_iff o).mpr h⟩

/-! ### Loop invariants -/

theorem runAttempts_attempts_le (net : Nat → NetOutcome) :
    ∀ (n k : Nat), (runAttempts net k n).attempts ≤ n := by
  intro n
  induction n with
  | zero => intro k; rw [runAttempts_zero]
  | succ m ih =>
    intro k
    cases hstep : step (net k) with
    | retry b =>
      rw [runAttempts_succ_retry hstep]
      have := ih (k + 1)
      simp only
      omega
    | done r => rw [runAttempts_succ_done hstep]; simp
    | crash => rw [runAttempts_succ_crash hstep]; simp

theorem runAttempts_all_fail (net : Nat → NetOutcome) :
    ∀ (n k : Nat), (∀ j, j < n → FailsOn (net (k + j))) →
      (runAttempts net k n).outcome = ExecOutcome.exhausted ∧
      (runAttempts net k n).attempts = n := by
  intro n
  induction n with
  | zero => intro k _; rw [runAttempts_zero]; exact ⟨rfl, rfl⟩
  | succ m ih =>
    intro k h
    have h0 : FailsOn (net k) := by
      have := h 0 (Nat.succ_pos m)
      simpa using this
    obtain ⟨b, hb⟩ := step_retry_of_fails h0
    rw [runAttempts_succ_retry hb]
    have ht := ih (k + 1) (fun j hj => by
      have hh := h (j + 1) (by omega)
      have e : k + (j + 1) = k + 1 + j := by omega
      rwa [e] at hh)
    exact ⟨ht.1, by simp only; omega⟩

theorem runAttempts_first_success (net : Nat → NetOutcome) (r : LlmResult)
    (s : String) (hc : firstContent r = some s)
    (hinc : is_llm_response_incomplete s = false) :
    ∀ (i n k : Nat), i < n → (∀ j, j < i → FailsOn (net (k + j))) →
      net (k + i) = NetOutcome.success r →
      (runAttempts net k n).outcome = ExecOutcome.completed r ∧
      (runAttempts net k n).attempts = i + 1 := by
  intro i
  induction i with
  | zero =>
    intro n k hn _ hs
    obtain ⟨m, rfl⟩ : ∃ m, n = m + 1 := ⟨n - 1, by omega⟩
    have hk : net k = NetOutcome.success r := by simpa using hs
    have hstep : step (net k) = StepResult.done r := by
      rw [hk]; exact step_done_of_complete hc hinc
    rw [runAttempts_succ_done hstep]
    exact ⟨rfl, rfl⟩
  | succ i ih =>
    intro n k hn hf hs
    obtain ⟨m, rfl⟩ : ∃ m, n = m + 1 := ⟨n - 1, by omega⟩
    have h0 : FailsOn (net k) := by simpa using hf 0 (Nat.succ_pos i)
    obtain ⟨b, hb⟩ := step_retry_of_fails h0
    rw [runAttempts_succ_retry hb]
    have hs2 : net (k + 1 + i) = NetOutcome.success r := by
      have e : k + (i + 1) = k + 1 + i := by omega
      rwa [e] at hs
    have ht := ih m (k + 1) (by omega)
      (fun j hj => by
        have hh := hf (j + 1) (by omega)
        have e : k + (j + 1) = k + 1 + j := by omega
        rwa [e] at hh)
      hs2
    exact ⟨ht.1, by simp only; omega⟩

theorem runAttempts_completed_inv (net : Nat → NetOutcome) :
    ∀ (n k : Nat) (r : LlmResult),
      (runAttempts net k n).outcome = ExecOutcome.completed r →
      ∃ s, firstContent r = some s ∧ is_llm_response_incomplete s = false := by
  intro n
  induction n with
  | zero =>
    intro k r h
    rw [runAttempts_zero] at h
    exact absurd h (by simp)
  | succ m ih =>
    intro k r h
    cases hstep : step (net k) with
    | retry b =>
      rw [runAttempts_succ_retry hstep] at h
      exact ih (k + 1) r h
    | done r2 =>
      rw [runAttempts_succ_done hstep] at h
      simp only [ExecOutcome.completed.injEq] at h
      subst h
      exact (step_done_inv hstep).2
    | crash =>
      rw [runAttempts_succ_crash hstep] at h
      exact absurd h (by simp)

theorem runAttempts_sleeps_iff (net : Nat → NetOutcome) :
    ∀ (n k i : Nat),
      i ∈ (runAttempts net k n).sleeps ↔
        (k ≤ i ∧ i < k + (runAttempts net k n).attempts ∧
          step (net i) = StepResult.retry true) := by
  intro n
  induction n with
  | zero =>
    intro k i
    rw [runAttempts_zero]
    simp only [List.not_mem_nil, false_iff]
    rintro ⟨h1, h2, _⟩
    omega
  | succ m ih =>
    intro k i
    cases hstep : step (net k) with
    | retry b =>
      rw [sleeps_succ_retry hstep, attempts_succ_retry hstep]
      cases b with
      | true =>
        simp only [if_true]
        constructor
        · intro h
          rcases List.mem_cons.mp h with rfl | h2
          · exact ⟨Nat.le_refl i, by omega, hstep⟩
          · obtain ⟨h1, h2', h3⟩ := (ih (k + 1) i).mp h2
            exact ⟨by omega, by omega, h3⟩
        · rintro ⟨h1, h2, h3⟩
          by_cases hik : i = k
          · subst hik; exact List.mem_cons_self i _
          · exact List.mem_cons_of_mem _
              ((ih (k + 1) i).mpr ⟨by omega, by omega, h3⟩)
      | false =>
        simp only [Bool.false_eq_true, if_false]
        constructor
        · intro h
          obtain ⟨h1, h2', h3⟩ := (ih (k + 1) i).mp h
          exact ⟨by omega, by omega, h3⟩
        · rintro ⟨h1, h2, h3⟩
          have hik : i ≠ k := by
            intro he
            subst he
            rw [hstep] at h3
            exact absurd h3 (by simp)
          exact (ih (k + 1) i).mpr ⟨by omega, by omega, h3⟩
    | done r =>
      rw [runAttempts_succ_done hstep]
      simp only [List.not_mem_nil, false_iff]
      rintro ⟨h1, h2, h3⟩
      have hik : i = k := by omega
      subst hik
      rw [hstep] at h3
      exact absurd h3 (by simp)
    | crash =>
      rw [runAttempts_succ_crash hstep]
      simp only [List.not_mem_nil, false_iff]
      rintro ⟨h1, h2, h3⟩
      have hik : i = k := by omega
      subst hik
      rw [hstep] at h3
      exact absurd h3 (by simp)

/-! ### Concrete inputs used by witnesses and the counterexample -/

/-- A long non-JSON text whose final closing brace IS matched by the earlier
opening brace: the input separating claim C3 from the code. -/
def longBraceText : String :=
  "The response ends with a code block like function f() \x7b return 42; \x7d"

/-- A long plain non-JSON answer with no trailing fragment character. -/
def plainLongText : String :=
  "This answer is a complete plain sentence of adequate length for the classifier."

/-! ### Claim theorems about the classifier -/

/-- C4: every string accepted by `json.loads` is classified complete
(`is_llm_response_incomplete` returns `false`), regardless of leading or
trailing whitespace (the recognizer consumes it) and before any of the later
heuristics can fire. -/
theorem valid_json_is_complete (s : String) (h : jsonValid s = true) :
    is_llm_response_incomplete s = false := by
  have hne : s ≠ "" := by
    intro he
    subst he
    exact absurd h (by decide)
  simp [is_llm_response_incomplete, hne, h]

/-- Witness for C4: a valid JSON object with surrounding whitespace is
classified complete. -/
theorem valid_json_is_complete_witness :
    jsonValid "  \x7b\"ok\": [1, 2, 3]\x7d  " = true ∧
    is_llm_response_incomplete "  \x7b\"ok\": [1, 2, 3]\x7d  " = false :=
  ⟨by decide, valid_json_is_complete _ (by decide)⟩

/-- C5: a string `json.loads` rejects is classified incomplete whenever its
trimmed form ends in one of the five characters the claim names, or is
shorter than 50 characters. -/
theorem nonjson_marker_or_short_is_incomplete (s : String)
    (hjson : jsonValid s = false)
    (h : spec_trailingMarker (pyStrip s) = true ∨ (pyStrip s).length < 50) :
    is_llm_response_incomplete s = true := by
  by_cases he : s = ""
  · subst he; rfl
  · have hpat : spec_trailingMarker (pyStrip s) = true →
        matchesIncompletePattern (pyStrip s) = true := by
      intro hm
      unfold spec_trailingMarker at hm
      unfold matchesIncompletePattern
      cases hl : (pyStrip s).data.getLast? with
      | none => rw [hl] at hm; exact absurd hm (by simp)
      | some c =>
        rw [hl] at hm
        simp only [Bool.or_eq_true] at hm ⊢
        tauto
    rcases h with hm | hlen
    · simp [is_llm_response_incomplete, he, hjson, hpat hm]
    · by_cases hp : matchesIncompletePattern (pyStrip s) = true
      · simp [is_llm_response_incomplete, he, hjson, hp]
      · rw [Bool.not_eq_true] at hp
        simp [is_llm_response_incomplete, he, hjson, hp, hlen]

/-- Witness for C5: the short rejected input "hi" is classified
incomplete. -/
theorem nonjson_marker_or_short_is_incomplete_witness :
    jsonValid "hi" = false ∧ (pyStrip "hi").length < 50 ∧
    is_llm_response_incomplete "hi" = true :=
  ⟨by decide, by decide,
    nonjson_marker_or_short_is_incomplete "hi" (by decide) (Or.inr (by decide))⟩

/-- Counterexample to C3 as stated: `longBraceText` fails `json.loads`, its
trimmed form does NOT end in any of the spec's trailing fragments (the final
closing brace is matched by the earlier opening brace), its trimmed length is
at least 50 — yet the code classifies it incomplete, because the pattern
`r'}\s*$'` fires on ANY trailing closing brace. -/
theorem matched_brace_counterexample :
    ¬ (∀ s : String, jsonValid s = false →
        spec_trailingFragment (pyStrip s) = false →
        50 ≤ (pyStrip s).length →
        is_llm_response_incomplete s = false) := by
  intro hclaim
  have h := hclaim longBraceText (by decide) (by decide) (by decide)
  exact absurd h (by decide)

/-- C3 (amended): a string `json.loads` rejects whose trimmed form does not
end in any of the six pattern characters — with ANY trailing closing brace
counting, matched in context or not — and whose trimmed length is at least 50
is classified complete. -/
theorem nonjson_no_trailing_fragment_long_is_complete (s : String)
    (hjson : jsonValid s = false)
    (hfrag : spec_trailingFragmentAmended (pyStrip s) = false)
    (hlen : 50 ≤ (pyStrip s).length) :
    is_llm_response_incomplete s = false := by
  have he : s ≠ "" := by
    intro hx
    subst hx
    revert hlen
    decide
  have hpat : matchesIncompletePattern (pyStrip s) = false := by
    unfold spec_trailingFragmentAmended at hfrag
    unfold matchesIncompletePattern
    cases hl : (pyStrip s).data.getLast? with
    | none => rfl
    | some c =>
      rw [hl] at hfrag
      simp only [Bool.or_eq_false_iff] at hfrag ⊢
      tauto
  unfold is_llm_response_incomplete
  rw [if_neg he, if_neg (by simp [hjson]), if_neg (by simp [hpat]),
    if_neg (by omega)]

/-- Witness for amended C3: a long plain sentence ending in a period is
classified complete. -/
theorem nonjson_no_trailing_fragment_long_is_complete_witness :
    jsonValid plainLongText = false ∧
    spec_trailingFragmentAmended (pyStrip plainLongText) = false ∧
    50 ≤ (pyStrip plainLongText).length ∧
    is_llm_response_incomplete plainLongText = false :=
  ⟨by decide, by decide, by decide,
    nonjson_no_trailing_fragment_long_is_complete plainLongText
      (by decide) (by decide) (by decide)⟩

/-- C6: the classifier is a total function (it always yields a boolean — in
this embedding totality holds by construction and the third conjunct records
it), and both the empty string and the `None` input are classified
incomplete. -/
theorem classifier_total_empty_and_none_incomplete :
    is_llm_response_incomplete_opt none = true ∧
    is_llm_response_incomplete_opt (some "") = true ∧
    ∀ x : Option String, is_llm_response_incomplete_opt x = true ∨
      is_llm_response_incomplete_opt x = false :=
  ⟨rfl, rfl, fun x => by
    cases h : is_llm_response_incomplete_opt x with
    | true => exact Or.inl rfl
    | false => exact Or.inr rfl⟩

/-! ### Concrete networks and results for the loop witnesses -/

/-- Sixty characters: long enough, no trailing fragment — classified
complete. -/
def goodText : String := String.mk (List.replicate 60 'a')

def goodResult : LlmResult :=
  { choices := some [{ message := some { content := some goodText } }] }

/-- A body whose content "ab" is classified incomplete (length rule). -/
def shortResult : LlmResult :=
  { choices := some [{ message := some { content := some "ab" } }] }

/-- Attempt 0 times out, every later attempt succeeds with complete
content. -/
def net1 : Nat → NetOutcome :=
  fun j => if j = 0 then .timeout else .success goodResult

/-- Timeout, transport error, then an incomplete response: every attempt of
a 3-attempt budget fails. -/
def net2 : Nat → NetOutcome :=
  fun j => if j = 0 then .timeout else if j = 1 then .reqError
           else .success shortResult

def constTimeoutNet : Nat → NetOutcome := fun _ => .timeout

/-- A 2xx body with a nonempty `choices` array whose first element has no
`message` key. -/
def noMessageResult : LlmResult := { choices := some [{ message := none }] }

/-- A 2xx body whose first choice has a `message` object without a `content`
key. -/
def noContentResult : LlmResult :=
  { choices := some [{ message := some { content := none } }] }

/-! ### Claim theorems about the retry loop -/

/-- C1: (a) if attempts `0..i-1` all fail (timeout, transport error, missing
or empty choices, or incomplete content) and attempt `i < max_retries`
returns a body whose first-choice content is classified complete, then
`call_llm_with_timeout_handling` returns that body having performed exactly
`i + 1` attempts — no further network attempts; (b) any Completed result
carries a first-choice content the classifier judged complete. -/
theorem execute_returns_first_complete :
    (∀ (net : Nat → NetOutcome) (max_retries i : Nat) (r : LlmResult)
        (s : String),
      i < max_retries →
      (∀ j, j < i → FailsOn (net j)) →
      net i = NetOutcome.success r →
      firstContent r = some s →
      is_llm_response_incomplete s = false →
      (call_llm_with_timeout_handling net max_retries).outcome =
          ExecOutcome.completed r ∧
        (call_llm_with_timeout_handling net max_retries).attempts = i + 1) ∧
    (∀ (net : Nat → NetOutcome) (max_retries : Nat) (r : LlmResult),
      (call_llm_with_timeout_handling net max_retries).outcome =
          ExecOutcome.completed r →
      ∃ s, firstContent r = some s ∧ is_llm_response_incomplete s = false) := by
  constructor
  · intro net max_retries i r s hi hf hnet hc hinc
    exact runAttempts_first_success net r s hc hinc i max_retries 0 hi
      (fun j hj => by rw [Nat.zero_add]; exact hf j hj)
      (by rw [Nat.zero_add]; exact hnet)
  · intro net max_retries r h
    exact runAttempts_completed_inv net max_retries 0 r h

/-- Witness for C1: with a timeout on attempt 0 and a complete body on
attempt 1, execution completes after exactly 2 of the 3 budgeted
attempts. -/
theorem execute_returns_first_complete_witness :
    (1 < 3) ∧ (∀ j, j < 1 → FailsOn (net1 j)) ∧
    net1 1 = NetOutcome.success goodResult ∧
    firstContent goodResult = some goodText ∧
    is_llm_response_incomplete goodText = false ∧
    ((call_llm_with_timeout_handling net1 3).outcome =
        ExecOutcome.completed goodResult ∧
      (call_llm_with_timeout_handling net1 3).attempts = 2) := by
  have hf : ∀ j, j < 1 → FailsOn (net1 j) := by
    intro j hj
    have hj0 : j = 0 := by omega
    subst hj0
    exact Or.inl rfl
  exact ⟨by decide, hf, rfl, rfl, by decide,
    execute_returns_first_complete.1 net1 3 1 goodResult goodText (by decide)
      hf rfl rfl (by decide)⟩

/-- C2: with `max_retries ≥ 1` the loop performs at most `max_retries`
attempts, every performed attempt index is below `max_retries`, and when all
`max_retries` attempts fail, exactly `max_retries` attempts happen and the
failure result is returned. -/
theorem execute_attempt_budget (net : Nat → NetOutcome) (max_retries : Nat)
    (_hpos : 1 ≤ max_retries) :
    (call_llm_with_timeout_handling net max_retries).attempts ≤ max_retries ∧
    (∀ i, i < (call_llm_with_timeout_handling net max_retries).attempts →
      i < max_retries) ∧
    ((∀ j, j < max_retries → FailsOn (net j)) →
      (call_llm_with_timeout_handling net max_retries).attempts = max_retries ∧
      (call_llm_with_timeout_handling net max_retries).outcome =
        ExecOutcome.exhausted) := by
  simp only [call_llm_with_timeout_handling]
  have hle := runAttempts_attempts_le net max_retries 0
  refine ⟨hle, fun i hi => by omega, fun hall => ?_⟩
  have h := runAttempts_all_fail net max_retries 0
    (fun j hj => by rw [Nat.zero_add]; exact hall j hj)
  exact ⟨h.2, h.1⟩

/-- Witness for C2: three timeouts against a budget of 3 give exactly 3
attempts and exhaustion. -/
theorem execute_attempt_budget_witness :
    (1 ≤ 3) ∧
    ((call_llm_with_timeout_handling constTimeoutNet 3).attempts ≤ 3 ∧
      (∀ i, i < (call_llm_with_timeout_handling constTimeoutNet 3).attempts →
        i < 3) ∧
      ((∀ j, j < 3 → FailsOn (constTimeoutNet j)) →
        (call_llm_with_timeout_handling constTimeoutNet 3).attempts = 3 ∧
        (call_llm_with_timeout_handling constTimeoutNet 3).outcome =
          ExecOutcome.exhausted)) :=
  ⟨by decide, execute_attempt_budget constTimeoutNet 3 (by decide)⟩

/-- C7: the 2-second backoff runs after attempt `i` exactly when attempt `i`
was performed and received a response whose first-choice content the
classifier judged incomplete; in particular no sleep ever follows a timeout,
a transport error, or a body without usable choices. -/
theorem backoff_iff_incomplete_response (net : Nat → NetOutcome)
    (max_retries i : Nat) :
    i ∈ (call_llm_with_timeout_handling net max_retries).sleeps ↔
      (i < (call_llm_with_timeout_handling net max_retries).attempts ∧
        ∃ r s, net i = NetOutcome.success r ∧ firstContent r = some s ∧
          is_llm_response_incomplete s = true) := by
  simp only [call_llm_with_timeout_handling]
  rw [runAttempts_sleeps_iff]
  constructor
  · rintro ⟨h1, h2, h3⟩
    exact ⟨by omega, (step_retry_true_iff _).mp h3⟩
  · rintro ⟨h1, h2⟩
    exact ⟨Nat.zero_le i, by omega, (step_retry_true_iff _).mpr h2⟩

/-- Witness for C7, instantiated at the mixed-failure network and attempt 2
(the incomplete-response attempt). -/
theorem backoff_iff_incomplete_response_witness :
    2 ∈ (call_llm_with_timeout_handling net2 3).sleeps ↔
      (2 < (call_llm_with_timeout_handling net2 3).attempts ∧
        ∃ r s, net2 2 = NetOutcome.success r ∧ firstContent r = some s ∧
          is_llm_response_incomplete s = true) :=
  backoff_iff_incomplete_response net2 3 2

/-- C8: when every budgeted attempt fails or is classified incomplete, the
loop returns the failure indicator (`return None`, no exception) after
exactly `max_retries` attempts and never retries further. -/
theorem exhausted_returns_failure (net : Nat → NetOutcome)
    (max_retries : Nat)
    (hall : ∀ j, j < max_retries → FailsOn (net j)) :
    (call_llm_with_timeout_handling net max_retries).outcome =
      ExecOutcome.exhausted ∧
    (call_llm_with_timeout_handling net max_retries).attempts = max_retries := by
  simp only [call_llm_with_timeout_handling]
  exact runAttempts_all_fail net max_retries 0
    (fun j hj => by rw [Nat.zero_add]; exact hall j hj)

/-- Witness for C8: timeout, transport error, incomplete response → the
exhausted result after exactly 3 attempts. -/
theorem exhausted_returns_failure_witness :
    (∀ j, j < 3 → FailsOn (net2 j)) ∧
    ((call_llm_with_timeout_handling net2 3).outcome =
        ExecOutcome.exhausted ∧
      (call_llm_with_timeout_handling net2 3).attempts = 3) := by
  have hall : ∀ j, j < 3 → FailsOn (net2 j) := by
    intro j hj
    interval_cases j
    · exact Or.inl rfl
    · exact Or.inr (Or.inl rfl)
    · exact Or.inr (Or.inr (Or.inr ⟨shortResult, "ab", rfl, rfl, by decide⟩))
  exact ⟨hall, exhausted_returns_failure net2 3 hall⟩

/-- C10: a 2xx outcome with a nonempty `choices` array whose first element
lacks the `message` key (or whose `message` lacks `content`) makes the loop
abort with the uncaught `KeyError` after the first attempt, instead of
recording a failure and continuing. -/
theorem missing_keys_raise_keyerror :
    ((call_llm_with_timeout_handling
        (fun _ => NetOutcome.success noMessageResult) 3).outcome =
          ExecOutcome.keyError ∧
      (call_llm_with_timeout_handling
        (fun _ => NetOutcome.success noMessageResult) 3).attempts = 1 ∧
      noMessageResult.choices = some [{ message := none }]) ∧
    ((call_llm_with_timeout_handling
        (fun _ => NetOutcome.success noContentResult) 3).outcome =
          ExecOutcome.keyError ∧
      (call_llm_with_timeout_handling
        (fun _ => NetOutcome.success noContentResult) 3).attempts = 1 ∧
      noContentResult.choices = some [{ message := some { content := none } }]) :=
  ⟨⟨rfl, rfl, rfl⟩, ⟨rfl, rfl, rfl⟩⟩

/-- C9: a missing or empty API key, or a blank (whitespace-only) query,
makes `main` raise the precondition error with zero HTTP attempts. -/
theorem precondition_blocks_network (net : Nat → NetOutcome)
    (api_key : Option String) (query : String)
    (h : api_key = none ∨ api_key = some "" ∨ pyStrip query = "") :
    main net api_key query = (MainOutcome.preconditionError, 0) := by
  rcases h with rfl | rfl | hq
  · rfl
  · rfl
  · by_cases hk : pyTruthy api_key = true
    · simp [main, hk, hq]
    · rw [Bool.not_eq_true] at hk
      simp [main, hk]

/-- Witness for C9: empty api key and the non-blank query "hi". -/
theorem precondition_blocks_network_witness :
    ((some "" : Option String) = none ∨ (some "" : Option String) = some "" ∨
      pyStrip "hi" = "") ∧
    main constTimeoutNet (some "") "hi" = (MainOutcome.preconditionError, 0) :=
  ⟨Or.inr (Or.inl rfl),
    precondition_blocks_network constTimeoutNet (some "") "hi"
      (Or.inr (Or.inl rfl))⟩

end LlmClient
